import Mathlib

/-!
Shallow embedding of the FACEIT rank-sync Discord bot (`bot.py`) and proofs of
the behavioural properties of its reconciliation scheduler, per-account sync
step, and the link-management commands.
-/

/-- Discord user ids (the `user_id` keys of `faceit_links.json`, `member.id`). -/
abbrev UserId := Nat

/-- The fixed rank-role name marker `"FACEIT Level "` used both to build the
target role name (`role_name = f"FACEIT Level {faceit_level}"`, bot.py line
101) and to recognise held rank roles (`r.name.startswith("FACEIT Level ")`,
line 108). -/
def rankMarker : String := "FACEIT Level "

/-- The target role name `role_name = f"FACEIT Level {faceit_level}"` (bot.py line 101). -/
def roleNameFor (lvl : Nat) : String := rankMarker ++ toString lvl

/-- The held-rank-role test `r.name.startswith("FACEIT Level ")` (bot.py lines 108,
255, 292, 526), embedded as a starts-with test on the underlying character
lists. -/
def isRankRoleName (roleName : String) : Bool := rankMarker.data.isPrefixOf roleName.data

/-- Result of the FACEIT player-lookup HTTP GET (bot.py lines 86-99): the HTTP
status code and, when the parsed JSON carries it, `games.cs2.skill_level`
(`none` models the `KeyError`/`TypeError` path of lines 93-97, `some 0` the
falsy `if not faceit_level` path of line 98). -/
structure ProviderResp where
  status : Nat
  skillLevel : Option Nat
deriving DecidableEq

/-- A platform write call issued by the bot: role creation (bot.py line 105),
role removal (line 110) or role addition (line 113), tagged with guild id,
member id and role name (role identity inside a guild is by exact name, as in
`discord.utils.get(guild.roles, name=role_name)`, line 102). -/
inductive WriteOp where
  | createRole (gid : Nat) (roleName : String)
  | removeRole (gid : Nat) (uid : UserId) (roleName : String)
  | addRole (gid : Nat) (uid : UserId) (roleName : String)
deriving DecidableEq

/-- External environment of one sync pass: the FACEIT lookup result per
username and a fault oracle for the platform write calls. `provider u = none`
models `requests.get` itself raising (bot.py line 87, a transport failure):
no per-account handler catches it, so it propagates to the handler at line
121 exactly like a raising write call; `some resp` is a returned HTTP
response. `writeOk op = false` models the awaited platform write raising,
which the per-account body of bot.py lines 101-113 does not catch either. -/
structure Env where
  provider : String → Option ProviderResp
  writeOk : WriteOp → Bool

/-- Mutable platform state of one guild: its role names (`guild.roles`) and
the resolvable members with their role lists (`member.roles`). A user id
absent from `members` models the member-resolution failure paths of bot.py
lines 72-84: `get_member` returning `None` and `fetch_member` raising either
`discord.NotFound` or `discord.HTTPException`, all of which `continue`. -/
structure GuildState where
  gid : Nat
  roles : List String
  members : List (UserId × List String)
deriving DecidableEq

/-- Replace the role list of member `uid`: the platform-side effect of the
`remove_roles` / `add_roles` calls applied to that member. -/
def setRoles (ms : List (UserId × List String)) (uid : UserId) (rs : List String) :
    List (UserId × List String) :=
  ms.map (fun p => if p.1 = uid then (uid, rs) else p)

/-- The stale-role removal loop (bot.py lines 107-110): iterate the member's
role snapshot; every role whose name starts with the marker and differs from
the target role is removed with a platform call. A failing call raises out of
the loop (there is no per-account handler around lines 101-113). Returns the
member's resulting role list, the write calls issued in order, and the abort
flag. -/
def removeLoop (env : Env) (gid : Nat) (uid : UserId) (target : String) :
    List String → List String → List String × List WriteOp × Bool
  | [], cur => (cur, [], false)
  | r :: rest, cur =>
    if isRankRoleName r && r != target then
      let op := WriteOp.removeRole gid uid r
      if env.writeOk op then
        let res := removeLoop env gid uid target rest (cur.erase r)
        (res.1, op :: res.2.1, res.2.2)
      else (cur, [op], true)
    else removeLoop env gid uid target rest cur

/-- Remove-then-add phase (bot.py lines 106-115): run the removal loop on the
member's current roles, then add the target role only when the member does not
already hold it (`if role not in member.roles`, line 111). `pre` carries the
write calls already issued for this account (a role creation). -/
def applyRoles (env : Env) (st : GuildState) (uid : UserId) (mrs : List String)
    (target : String) (pre : List WriteOp) : GuildState × List WriteOp × Bool :=
  let rem := removeLoop env st.gid uid target mrs mrs
  let st₁ : GuildState := { st with members := setRoles st.members uid rem.1 }
  if rem.2.2 then (st₁, pre ++ rem.2.1, true)
  else if target ∈ rem.1 then (st₁, pre ++ rem.2.1, false)
  else
    let op := WriteOp.addRole st.gid uid target
    if env.writeOk op then
      ({ st₁ with members := setRoles st₁.members uid (rem.1 ++ [target]) },
        pre ++ rem.2.1 ++ [op], false)
    else (st₁, pre ++ rem.2.1 ++ [op], true)

/-- One (guild, linked account) step of the periodic sync (bot.py lines
70-115): resolve the member, fetch the FACEIT level, skip on a member-lookup
failure, a non-success HTTP status or an indeterminable level (lines 73-100),
otherwise get-or-create the target role (lines 102-105), remove stale rank
roles, and add the target role if not already held. A raising fetch
(`provider = none`, line 87) aborts the step with nothing written, since no
per-account handler exists. Returns the new guild state, the platform write
calls in order, and whether an uncaught exception aborted the step. -/
def syncMember (env : Env) (st : GuildState) (uid : UserId) (username : String) :
    GuildState × List WriteOp × Bool :=
  match st.members.lookup uid with
  | none => (st, [], false)
  | some mrs =>
    match env.provider username with
    | none => (st, [], true)
    | some resp =>
      if resp.status ≠ 200 then (st, [], false)
      else
        match resp.skillLevel with
        | none => (st, [], false)
        | some lvl =>
          if lvl = 0 then (st, [], false)
          else
            let target := roleNameFor lvl
            if target ∈ st.roles then applyRoles env st uid mrs target []
            else
              let op := WriteOp.createRole st.gid target
              if env.writeOk op then
                applyRoles env { st with roles := st.roles ++ [target] } uid mrs target [op]
              else (st, [op], true)

/-- Process the link mapping inside one guild (bot.py lines 70-115), accounts
in iteration order. An uncaught error from one account's platform writes
aborts the remainder of the pass: it propagates to the handler at line 121. -/
def processLinks (env : Env) (st : GuildState) :
    List (UserId × String) → GuildState × List WriteOp × Bool
  | [] => (st, [], false)
  | (uid, username) :: rest =>
    let r := syncMember env st uid username
    if r.2.2 then (r.1, r.2.1, true)
    else
      let rs := processLinks env r.1 rest
      (rs.1, r.2.1 ++ rs.2.1, rs.2.2)

/-- One full reconciliation pass (bot.py lines 64-116): every guild, then
every linked account inside it, against one shared link snapshot; an abort
skips the remaining guilds of the pass as well. -/
def syncGuilds (env : Env) (links : List (UserId × String)) :
    List GuildState → List GuildState × List WriteOp × Bool
  | [] => ([], [], false)
  | g :: gs =>
    let r := processLinks env g links
    if r.2.2 then (r.1 :: gs, r.2.1, true)
    else
      let rs := syncGuilds env links gs
      (r.1 :: rs.1, r.2.1 ++ rs.2.1, rs.2.2)

/-- The reconciliation pass over a given link snapshot. -/
def runOnce (env : Env) (links : List (UserId × String)) (gs : List GuildState) :
    List GuildState × List WriteOp × Bool :=
  syncGuilds env links gs

/-- Function `load_links` (bot.py lines 41-47): any exception while opening or parsing
the links file is swallowed and an empty mapping is returned. -/
def load_links (readResult : Except String (List (UserId × String))) :
    List (UserId × String) :=
  match readResult with
  | .ok links => links
  | .error _ => []

/-- A pass as the sync task actually starts it: `links = load_links()`
(bot.py line 65) followed by the sweep over all guilds. -/
def runOnceWithStore (env : Env) (readResult : Except String (List (UserId × String)))
    (gs : List GuildState) : List GuildState × List WriteOp × Bool :=
  runOnce env (load_links readResult) gs

/-- Observable actions of the supervisor loop `faceit_sync_task`
(bot.py lines 58-124). -/
inductive SupEvent where
  | waitReady
  | pass (aborted : Bool)
  | sleep (secs : Nat)
deriving DecidableEq

/-- The fixed error backoff of the supervisor: `await asyncio.sleep(60)`
(bot.py line 124). -/
def backoffSecs : Nat := 60

/-- Events of one loop iteration (bot.py lines 61-124): a reconciliation pass,
then either the normal inter-cycle sleep `SYNC_INTERVAL_MINUTES * 60`
(line 117) or, when an unexpected error escaped the pass, the fixed 60-second
backoff (lines 121-124). -/
def iterEvents (intervalMin : Nat) (aborted : Bool) : List SupEvent :=
  if aborted then [SupEvent.pass true, SupEvent.sleep backoffSecs]
  else [SupEvent.pass false, SupEvent.sleep (intervalMin * 60)]

/-- The first `n` iterations of the supervisor loop: `wait_until_ready`
(bot.py line 59) followed by one `iterEvents` block per iteration, where
`outcome k` tells whether iteration `k`'s pass raised out of the sweep. The
trace is defined for every `n`: no sequence of pass failures terminates the
loop. -/
def loopEvents (intervalMin : Nat) (outcome : Nat → Bool) : Nat → List SupEvent
  | 0 => [SupEvent.waitReady]
  | n + 1 => loopEvents intervalMin outcome n ++ iterEvents intervalMin (outcome n)

/-- Scheduler state: `SYNC_INTERVAL_MINUTES`, the identity of `sync_task` as a
generation counter, whether that task exists and is not done, and which
generations have been cancelled. -/
structure SchedState where
  intervalMin : Nat
  generation : Nat
  running : Bool
  cancelled : List Nat
deriving DecidableEq

/-- Process start: default interval 360 (bot.py line 55) and the task of
generation 0 started by `setup_hook` (line 27). -/
def initialSched : SchedState :=
  { intervalMin := 360, generation := 0, running := true, cancelled := [] }

/-- Reply of the `/faceitsync` command body. -/
inductive SetIntervalResult where
  | invalidInterval
  | restarted
deriving DecidableEq

/-- The `/faceitsync` command body after the permission gate (bot.py lines 327-343):
reject `minutes < 1` before touching any state; otherwise set the interval,
cancel the previous task if it exists and is not done (lines 336-338), and
start a new one (line 340). -/
def faceitsync (s : SchedState) (minutes : Int) : SchedState × SetIntervalResult :=
  if minutes < 1 then (s, SetIntervalResult.invalidInterval)
  else
    ({ intervalMin := minutes.toNat,
       generation := s.generation + 1,
       running := true,
       cancelled := if s.running then s.cancelled ++ [s.generation] else s.cancelled },
      SetIntervalResult.restarted)

/-- Reply of the `/faceitupdate` command body. -/
inductive UpdateOutcome where
  | notLinked
  | fetchRaised
  | userFetchFailed
  | noLevel
  | updated
deriving DecidableEq

/-- The `/faceitupdate` command body after the permission gate, for the invoking guild
(bot.py lines 227-258): the same link lookup, FACEIT fetch, role
get-or-create and stale-role removal as the periodic sync, but the final
`add_roles` (line 257) is unconditional. Platform writes are taken as
succeeding here: an exception would abort the whole command handler, which no
claim covers. Returns the new guild role list, the user's new role list, the
write calls in order, and the reply outcome. -/
def faceitupdate (env : Env) (links : List (UserId × String)) (gid : Nat)
    (guildRoles : List String) (uid : UserId) (userRoles : List String) :
    List String × List String × List WriteOp × UpdateOutcome :=
  match links.lookup uid with
  | none => (guildRoles, userRoles, [], UpdateOutcome.notLinked)
  | some username =>
    match env.provider username with
    | none => (guildRoles, userRoles, [], UpdateOutcome.fetchRaised)
    | some resp =>
      if resp.status ≠ 200 then (guildRoles, userRoles, [], UpdateOutcome.userFetchFailed)
      else
        match resp.skillLevel with
        | none => (guildRoles, userRoles, [], UpdateOutcome.noLevel)
        | some lvl =>
          if lvl = 0 then (guildRoles, userRoles, [], UpdateOutcome.noLevel)
          else
            let target := roleNameFor lvl
            let createOps : List WriteOp :=
              if target ∈ guildRoles then [] else [WriteOp.createRole gid target]
            let guildRoles' :=
              if target ∈ guildRoles then guildRoles else guildRoles ++ [target]
            let stale := userRoles.filter (fun r => isRankRoleName r && r != target)
            let afterRemove := userRoles.diff stale
            let userRoles' :=
              if target ∈ afterRemove then afterRemove else afterRemove ++ [target]
            (guildRoles', userRoles',
              createOps ++ stale.map (WriteOp.removeRole gid uid) ++
                [WriteOp.addRole gid uid target],
              UpdateOutcome.updated)

/-- Operations performed by `/unlinkfaceit`: the `save_links` persistence call
(bot.py line 521) and each attempted rank-role removal with its outcome
(lines 525-531). -/
inductive UnlinkOp where
  | saveLinks (links : List (UserId × String))
  | removeAttempt (roleName : String) (ok : Bool)
deriving DecidableEq

/-- The role-removal loop of `/unlinkfaceit` (bot.py lines 525-531): every
held role whose name starts with the marker gets a removal attempt; a
`discord.HTTPException` from one attempt is caught and logged and the loop
continues with the next role. -/
def unlinkRemoveLoop (removeOk : String → Bool) : List String → List UnlinkOp
  | [] => []
  | r :: rest =>
    if isRankRoleName r then
      UnlinkOp.removeAttempt r (removeOk r) :: unlinkRemoveLoop removeOk rest
    else unlinkRemoveLoop removeOk rest

/-- The `/unlinkfaceit` command body after the permission gate (bot.py lines 512-537): if
the user is linked, delete the link record (`del links[user_id]`, line 520),
persist the mapping (`save_links`, line 521), and only then attempt the
rank-role removals. Returns the final mapping, the operations in order, and
whether an unlink happened. -/
def unlinkfaceit (links : List (UserId × String)) (uid : UserId)
    (userRoles : List String) (removeOk : String → Bool) :
    List (UserId × String) × List UnlinkOp × Bool :=
  match links.lookup uid with
  | none => (links, [], false)
  | some _ =>
    let links' := links.filter (fun p => p.1 != uid)
    (links', UnlinkOp.saveLinks links' :: unlinkRemoveLoop removeOk userRoles, true)

/-- The rank roles held in `mrs` other than `target`: the exact removal set of
the loop at bot.py lines 107-110. -/
def staleOf (mrs : List String) (target : String) : List String :=
  mrs.filter (fun r => isRankRoleName r && r != target)

/-- The member's role list after one successful sync step on snapshot `mrs`:
stale rank roles removed, the target appended when not already held. -/
def rolesAfter (mrs : List String) (target : String) : List String :=
  if target ∈ mrs.diff (staleOf mrs target) then mrs.diff (staleOf mrs target)
  else mrs.diff (staleOf mrs target) ++ [target]

/-- Well-formedness of a guild's member table as Discord maintains it: member
ids are unique and no member holds the same role twice. -/
def WFGuild (g : GuildState) : Prop :=
  (g.members.map Prod.fst).Nodup ∧ ∀ p ∈ g.members, (Prod.snd p).Nodup

instance (g : GuildState) : Decidable (WFGuild g) :=
  inferInstanceAs (Decidable (_ ∧ _))

/-! ### Concrete fixtures used by counterexamples and witnesses -/

/-- C3 counterexample setup: two linked members of one guild, the platform
failing exactly the role addition for member 1. -/
def envC3 : Env :=
  { provider := fun _ => some { status := 200, skillLevel := some 3 },
    writeOk := fun op => op != WriteOp.addRole 0 1 "FACEIT Level 3" }

def gC3 : GuildState :=
  { gid := 0, roles := ["FACEIT Level 3"], members := [(1, []), (2, [])] }

/-- C7 counterexample setup. -/
def envC7 : Env :=
  { provider := fun _ => some { status := 200, skillLevel := some 4 },
    writeOk := fun _ => true }

def gC7 : GuildState := { gid := 0, roles := [], members := [(5, ["FACEIT Level 2"])] }

/-- Witness fixture: every username resolves to FACEIT level 5, every platform
write succeeds. -/
def envW : Env :=
  { provider := fun _ => some { status := 200, skillLevel := some 5 },
    writeOk := fun _ => true }

/-- Witness fixture: a NotFound-answering provider. -/
def envNF : Env :=
  { provider := fun _ => some { status := 404, skillLevel := none },
    writeOk := fun _ => true }

/-- Fixture for the amended C3: the provider fetch raises (transport failure)
for `alice`, answers HTTP 500 for `carol`, and level 3 for everyone else; all
platform writes succeed. -/
def envC3r : Env :=
  { provider := fun u =>
      if u = "alice" then none
      else if u = "carol" then some { status := 500, skillLevel := some 2 }
      else some { status := 200, skillLevel := some 3 },
    writeOk := fun _ => true }

def gC3r : GuildState :=
  { gid := 0, roles := ["FACEIT Level 3"],
    members := [(1, []), (5, ["FACEIT Level 3"])] }

def gW : GuildState :=
  { gid := 7, roles := ["member"],
    members := [(1, ["FACEIT Level 2", "member"]), (2, [])] }

def gW9 : GuildState :=
  { gid := 7, roles := ["FACEIT Level 5"], members := [(1, ["FACEIT Level 5"])] }

def linksW : List (UserId × String) := [(1, "alice"), (2, "bob")]

/-! ### Association-list lemmas for the member table -/

theorem lookup_cons_ne (es : List (UserId × List String)) (k uid : UserId) (w : List String)
    (h : uid ≠ k) : ((k, w) :: es).lookup uid = es.lookup uid := by
  simp [List.lookup_cons, beq_false_of_ne h]

theorem setRoles_cons (k : UserId) (w : List String) (tl : List (UserId × List String))
    (uid : UserId) (v : List String) :
    setRoles ((k, w) :: tl) uid v =
      (if k = uid then (uid, v) else (k, w)) :: setRoles tl uid v := by
  simp [setRoles]

theorem setRoles_not_mem (ms : List (UserId × List String)) (uid : UserId) (v : List String)
    (h : uid ∉ ms.map Prod.fst) : setRoles ms uid v = ms := by
  induction ms with
  | nil => rfl
  | cons p tl ih =>
    obtain ⟨k, w⟩ := p
    simp only [List.map_cons, List.mem_cons] at h
    push_neg at h
    rw [setRoles_cons, if_neg (fun he => h.1 he.symm), ih h.2]

theorem lookup_setRoles_self (ms : List (UserId × List String)) (uid : UserId)
    (v₀ v : List String) (h : ms.lookup uid = some v₀) :
    (setRoles ms uid v).lookup uid = some v := by
  induction ms with
  | nil => simp at h
  | cons p tl ih =>
    obtain ⟨k, w⟩ := p
    by_cases hk : k = uid
    · subst hk
      rw [setRoles_cons, if_pos rfl]
      exact List.lookup_cons_self
    · rw [setRoles_cons, if_neg hk, lookup_cons_ne _ _ _ _ (fun he => hk he.symm)]
      rw [lookup_cons_ne _ _ _ _ (fun he => hk he.symm)] at h
      exact ih h

theorem lookup_setRoles_ne (ms : List (UserId × List String)) (uid uid' : UserId)
    (v : List String) (h : uid' ≠ uid) :
    (setRoles ms uid v).lookup uid' = ms.lookup uid' := by
  induction ms with
  | nil => rfl
  | cons p tl ih =>
    obtain ⟨k, w⟩ := p
    by_cases hk : k = uid
    · subst hk
      rw [setRoles_cons, if_pos rfl, lookup_cons_ne _ _ _ _ h, lookup_cons_ne _ _ _ _ h]
      exact ih
    · rw [setRoles_cons, if_neg hk]
      by_cases hk' : uid' = k
      · subst hk'
        simp [List.lookup_cons_self]
      · rw [lookup_cons_ne _ _ _ _ hk', lookup_cons_ne _ _ _ _ hk']
        exact ih

theorem setRoles_keys (ms : List (UserId × List String)) (uid : UserId) (v : List String) :
    (setRoles ms uid v).map Prod.fst = ms.map Prod.fst := by
  induction ms with
  | nil => rfl
  | cons p tl ih =>
    obtain ⟨k, w⟩ := p
    by_cases hk : k = uid
    · subst hk
      rw [setRoles_cons, if_pos rfl]
      simpa using ih
    · rw [setRoles_cons, if_neg hk]
      simpa using ih

theorem setRoles_eq_self (ms : List (UserId × List String)) (uid : UserId) (v : List String)
    (hnd : (ms.map Prod.fst).Nodup) (h : ms.lookup uid = some v) :
    setRoles ms uid v = ms := by
  induction ms with
  | nil => rfl
  | cons p tl ih =>
    obtain ⟨k, w⟩ := p
    simp only [List.map_cons, List.nodup_cons] at hnd
    by_cases hk : k = uid
    · subst hk
      rw [List.lookup_cons_self] at h
      have hw : w = v := by simpa using h
      subst hw
      rw [setRoles_cons, if_pos rfl, setRoles_not_mem tl k w hnd.1]
    · rw [lookup_cons_ne _ _ _ _ (fun he => hk he.symm)] at h
      rw [setRoles_cons, if_neg hk, ih hnd.2 h]

theorem lookup_none_iff_keys (ms : List (UserId × List String)) (uid : UserId) :
    ms.lookup uid = none ↔ uid ∉ ms.map Prod.fst := by
  simp only [List.lookup_eq_none_iff, List.mem_map, bne_iff_ne, ne_eq, not_exists, not_and]
  constructor
  · rintro h p hp he
    exact h p hp he.symm
  · intro h p hp he
    exact h p hp he.symm

theorem lookup_mem (ms : List (UserId × List String)) (uid : UserId) (v : List String)
    (h : ms.lookup uid = some v) : (uid, v) ∈ ms := by
  induction ms with
  | nil => simp at h
  | cons p tl ih =>
    obtain ⟨k, w⟩ := p
    by_cases hk : uid = k
    · subst hk
      rw [List.lookup_cons_self] at h
      have hw : w = v := by simpa using h
      subst hw
      exact List.mem_cons_self _ _
    · rw [lookup_cons_ne _ _ _ _ hk] at h
      exact List.mem_cons_of_mem _ (ih h)

theorem mem_setRoles (ms : List (UserId × List String)) (uid : UserId) (v : List String)
    (p : UserId × List String) (h : p ∈ setRoles ms uid v) :
    p.2 = v ∨ p ∈ ms := by
  unfold setRoles at h
  obtain ⟨q, hq, he⟩ := List.mem_map.mp h
  by_cases hk : q.1 = uid
  · rw [if_pos hk] at he
    left
    rw [← he]
  · rw [if_neg hk] at he
    right
    exact he ▸ hq

/-! ### Removal-loop and sync-step characterisation -/

theorem removeLoop_ok (env : Env) (gid : Nat) (uid : UserId) (target : String)
    (hok : ∀ op, env.writeOk op = true) (s : List String) :
    ∀ c, removeLoop env gid uid target s c =
      (c.diff (staleOf s target),
        (staleOf s target).map (WriteOp.removeRole gid uid), false) := by
  induction s with
  | nil => intro c; simp [removeLoop, staleOf]
  | cons r rest ih =>
    intro c
    by_cases hc : (isRankRoleName r && r != target) = true
    · have hs : staleOf (r :: rest) target = r :: staleOf rest target := by
        simp [staleOf, List.filter_cons, hc]
      rw [hs]
      simp only [removeLoop, hc, if_true, hok, ih (c.erase r), List.diff_cons, List.map_cons]
    · have hc' : (isRankRoleName r && r != target) = false := by
        simpa using hc
      have hs : staleOf (r :: rest) target = staleOf rest target := by
        simp [staleOf, List.filter_cons, hc']
      rw [hs]
      simp only [removeLoop, hc', Bool.false_eq_true, if_false, ih c]

theorem target_not_stale (mrs : List String) (target : String) :
    target ∉ staleOf mrs target := by
  intro h
  have := (List.mem_filter.mp h).2
  simp at this

theorem mem_diff_stale_iff (mrs : List String) (target : String) :
    target ∈ mrs.diff (staleOf mrs target) ↔ target ∈ mrs :=
  ⟨fun h => (List.diff_sublist _ _).mem h,
    fun h => List.mem_diff_of_mem h (target_not_stale mrs target)⟩

theorem setRoles_setRoles (ms : List (UserId × List String)) (uid : UserId)
    (v w : List String) : setRoles (setRoles ms uid v) uid w = setRoles ms uid w := by
  unfold setRoles
  rw [List.map_map]
  congr 1
  funext p
  by_cases hk : p.1 = uid <;> simp [hk, Function.comp]

theorem applyRoles_ok (env : Env) (st : GuildState) (uid : UserId) (mrs : List String)
    (target : String) (pre : List WriteOp) (hok : ∀ op, env.writeOk op = true) :
    applyRoles env st uid mrs target pre =
      ({ st with members := setRoles st.members uid (rolesAfter mrs target) },
        pre ++ (staleOf mrs target).map (WriteOp.removeRole st.gid uid) ++
          (if target ∈ mrs then [] else [WriteOp.addRole st.gid uid target]),
        false) := by
  unfold applyRoles
  rw [removeLoop_ok env st.gid uid target hok mrs mrs]
  by_cases hh : target ∈ mrs
  · have hd : target ∈ mrs.diff (staleOf mrs target) := (mem_diff_stale_iff mrs target).mpr hh
    simp [hd, hh, rolesAfter]
  · have hd : target ∉ mrs.diff (staleOf mrs target) :=
      fun h => hh ((mem_diff_stale_iff mrs target).mp h)
    simp [hd, hh, rolesAfter, hok, setRoles_setRoles]

theorem syncMember_run (env : Env) (st : GuildState) (uid : UserId) (u : String)
    (mrs : List String) (t : Nat)
    (hok : ∀ op, env.writeOk op = true)
    (hm : st.members.lookup uid = some mrs)
    (hp : env.provider u = some ⟨200, some t⟩) (ht : t ≠ 0) :
    syncMember env st uid u =
      ({ gid := st.gid,
         roles := if roleNameFor t ∈ st.roles then st.roles else st.roles ++ [roleNameFor t],
         members := setRoles st.members uid (rolesAfter mrs (roleNameFor t)) },
       (if roleNameFor t ∈ st.roles then []
         else [WriteOp.createRole st.gid (roleNameFor t)]) ++
         (staleOf mrs (roleNameFor t)).map (WriteOp.removeRole st.gid uid) ++
         (if roleNameFor t ∈ mrs then [] else [WriteOp.addRole st.gid uid (roleNameFor t)]),
       false) := by
  unfold syncMember
  rw [hm, hp]
  simp only [ne_eq, not_true_eq_false, if_false, ht, reduceIte]
  by_cases hr : roleNameFor t ∈ st.roles
  · rw [if_pos hr, applyRoles_ok env st uid mrs (roleNameFor t) [] hok]
    simp [hr]
  · rw [if_neg hr]
    simp only [hok, if_true]
    rw [applyRoles_ok env _ uid mrs (roleNameFor t) _ hok]
    simp [hr]

/-! ### Properties of the post-step role list -/

theorem staleOf_eq_nil_iff (l : List String) (target : String) :
    staleOf l target = [] ↔ ∀ r ∈ l, isRankRoleName r = true → r = target := by
  simp only [staleOf, List.filter_eq_nil_iff, Bool.and_eq_true, bne_iff_ne, ne_eq, not_and,
    not_not]

theorem mem_rolesAfter_target (mrs : List String) (target : String) :
    target ∈ rolesAfter mrs target := by
  unfold rolesAfter
  split
  · assumption
  · exact List.mem_append_right _ (List.mem_singleton.mpr rfl)

theorem rolesAfter_only_target (mrs : List String) (target : String) (hnd : mrs.Nodup) :
    staleOf (rolesAfter mrs target) target = [] := by
  rw [staleOf_eq_nil_iff]
  intro r hr hrank
  have hmem : r ∈ mrs.diff (staleOf mrs target) ∨ r = target := by
    unfold rolesAfter at hr
    split at hr
    · exact Or.inl hr
    · rcases List.mem_append.mp hr with h | h
      · exact Or.inl h
      · exact Or.inr (List.mem_singleton.mp h)
  rcases hmem with h | h
  · have hd := (List.Nodup.mem_diff_iff hnd).mp h
    by_contra hne
    exact hd.2 (List.mem_filter.mpr ⟨hd.1, by simp [hrank, hne]⟩)
  · exact h

theorem rolesAfter_nodup (mrs : List String) (target : String) (hnd : mrs.Nodup) :
    (rolesAfter mrs target).Nodup := by
  have hdiff : (mrs.diff (staleOf mrs target)).Nodup :=
    hnd.sublist (List.diff_sublist _ _)
  unfold rolesAfter
  split
  · exact hdiff
  · next hnm =>
    simp only [List.nodup_append, List.nodup_cons, List.not_mem_nil, not_false_eq_true,
      List.nodup_nil, and_true, List.disjoint_singleton]
    exact ⟨hdiff, trivial, hnm⟩

/-! ### Structural facts about one sync step -/

theorem syncMember_skip (env : Env) (st : GuildState) (uid : UserId) (u : String)
    (h : st.members.lookup uid = none ∨
      ∃ r, env.provider u = some r ∧
        (r.status ≠ 200 ∨ r.skillLevel = none ∨ r.skillLevel = some 0)) :
    syncMember env st uid u = (st, [], false) := by
  unfold syncMember
  cases hm : st.members.lookup uid with
  | none => rfl
  | some mrs =>
    rcases h with h | ⟨r, hr, hcond⟩
    · rw [hm] at h
      cases h
    · rw [hr]
      by_cases hs : r.status = 200
      · rcases hcond with h | h | h
        · exact absurd hs h
        · simp [hs, h]
        · simp [hs, h]
      · simp [hs]

theorem syncMember_raise (env : Env) (st : GuildState) (uid : UserId) (u : String)
    (mrs : List String) (hm : st.members.lookup uid = some mrs)
    (hp : env.provider u = none) :
    syncMember env st uid u = (st, [], true) := by
  unfold syncMember
  rw [hm, hp]

theorem syncMember_cases (env : Env) (st : GuildState) (uid : UserId) (u : String) :
    (st.members.lookup uid = none ∨
      ∃ r, env.provider u = some r ∧
        (r.status ≠ 200 ∨ r.skillLevel = none ∨ r.skillLevel = some 0)) ∨
    (∃ mrs, st.members.lookup uid = some mrs ∧ env.provider u = none) ∨
    ∃ mrs t, st.members.lookup uid = some mrs ∧
      env.provider u = some ⟨200, some t⟩ ∧ t ≠ 0 := by
  cases hm : st.members.lookup uid with
  | none => exact Or.inl (Or.inl rfl)
  | some mrs =>
    cases hpv : env.provider u with
    | none => exact Or.inr (Or.inl ⟨mrs, rfl, rfl⟩)
    | some r =>
      by_cases hs : r.status = 200
      · cases hl : r.skillLevel with
        | none => exact Or.inl (Or.inr ⟨r, rfl, Or.inr (Or.inl hl)⟩)
        | some t =>
          by_cases ht : t = 0
          · subst ht
            exact Or.inl (Or.inr ⟨r, rfl, Or.inr (Or.inr hl)⟩)
          · refine Or.inr (Or.inr ⟨mrs, t, rfl, ?_, ht⟩)
            obtain ⟨sv, lv⟩ := r
            simp only at hs hl
            rw [hs, hl]
      · exact Or.inl (Or.inr ⟨r, rfl, Or.inl hs⟩)

theorem applyRoles_shape (env : Env) (st : GuildState) (uid : UserId) (mrs : List String)
    (target : String) (pre : List WriteOp) :
    ∃ v, (applyRoles env st uid mrs target pre).1 =
      { st with members := setRoles st.members uid v } := by
  unfold applyRoles
  dsimp only
  split
  · exact ⟨_, rfl⟩
  · split
    · exact ⟨_, rfl⟩
    · split
      · exact ⟨_, by rw [setRoles_setRoles]⟩
      · exact ⟨_, rfl⟩

theorem syncMember_state (env : Env) (st : GuildState) (uid : UserId) (u : String) :
    (syncMember env st uid u).1 = st ∨
    ∃ v ex, (syncMember env st uid u).1 =
      { st with roles := st.roles ++ ex, members := setRoles st.members uid v } := by
  unfold syncMember
  cases hm : st.members.lookup uid with
  | none => exact Or.inl rfl
  | some mrs =>
    cases hpv : env.provider u with
    | none => exact Or.inl rfl
    | some r =>
      dsimp only
      split
      · exact Or.inl rfl
      · split
        · exact Or.inl rfl
        · split
          · exact Or.inl rfl
          · split
            · obtain ⟨v, hv⟩ := applyRoles_shape env st uid mrs _ []
              refine Or.inr ⟨v, [], ?_⟩
              rw [hv]
              simp
            · split
              · obtain ⟨v, hv⟩ :=
                  applyRoles_shape env { st with roles := st.roles ++ [roleNameFor _] }
                    uid mrs _ _
                exact Or.inr ⟨v, _, hv⟩
              · exact Or.inl rfl

theorem syncMember_gid (env : Env) (st : GuildState) (uid : UserId) (u : String) :
    (syncMember env st uid u).1.gid = st.gid := by
  rcases syncMember_state env st uid u with h | ⟨v, ex, h⟩ <;> rw [h]

theorem syncMember_keys (env : Env) (st : GuildState) (uid : UserId) (u : String) :
    (syncMember env st uid u).1.members.map Prod.fst = st.members.map Prod.fst := by
  rcases syncMember_state env st uid u with h | ⟨v, ex, h⟩
  · rw [h]
  · rw [h]
    exact setRoles_keys st.members uid v

theorem syncMember_frame (env : Env) (st : GuildState) (uid uid' : UserId) (u : String)
    (h : uid' ≠ uid) :
    (syncMember env st uid u).1.members.lookup uid' = st.members.lookup uid' := by
  rcases syncMember_state env st uid u with hs | ⟨v, ex, hs⟩
  · rw [hs]
  · rw [hs]
    exact lookup_setRoles_ne st.members uid uid' v h

theorem syncMember_roles_mono (env : Env) (st : GuildState) (uid : UserId) (u : String)
    (a : String) (h : a ∈ st.roles) : a ∈ (syncMember env st uid u).1.roles := by
  rcases syncMember_state env st uid u with hs | ⟨v, ex, hs⟩
  · rw [hs]; exact h
  · rw [hs]; exact List.mem_append_left _ h

theorem syncMember_noabort (env : Env) (st : GuildState) (uid : UserId) (u : String)
    (hok : ∀ op, env.writeOk op = true) (hpr : ∀ u', env.provider u' ≠ none) :
    (syncMember env st uid u).2.2 = false := by
  rcases syncMember_cases env st uid u with h | ⟨mrs, hm, hp⟩ | ⟨mrs, t, hm, hp, ht⟩
  · rw [syncMember_skip env st uid u h]
  · exact absurd hp (hpr u)
  · rw [syncMember_run env st uid u mrs t hok hm hp ht]

theorem syncMember_wf (env : Env) (st : GuildState) (uid : UserId) (u : String)
    (hok : ∀ op, env.writeOk op = true) (hwf : WFGuild st) :
    WFGuild (syncMember env st uid u).1 := by
  rcases syncMember_cases env st uid u with h | ⟨mrs, hm, hp⟩ | ⟨mrs, t, hm, hp, ht⟩
  · rw [syncMember_skip env st uid u h]
    exact hwf
  · rw [syncMember_raise env st uid u mrs hm hp]
    exact hwf
  · rw [syncMember_run env st uid u mrs t hok hm hp ht]
    have hmrs : mrs.Nodup := hwf.2 (uid, mrs) (lookup_mem st.members uid mrs hm)
    constructor
    · simpa [setRoles_keys] using hwf.1
    · intro p hp'
      rcases mem_setRoles st.members uid _ p hp' with h | h
      · rw [h]
        exact rolesAfter_nodup mrs (roleNameFor t) hmrs
      · exact hwf.2 p h

/-! ### The sync step is a no-op on an already-converged account -/

theorem syncMember_fixpoint (env : Env) (st : GuildState) (uid : UserId) (u : String)
    (mrs : List String) (t : Nat)
    (hok : ∀ op, env.writeOk op = true)
    (hkeys : (st.members.map Prod.fst).Nodup)
    (hm : st.members.lookup uid = some mrs)
    (hp : env.provider u = some ⟨200, some t⟩) (ht : t ≠ 0)
    (hr : roleNameFor t ∈ st.roles) (hheld : roleNameFor t ∈ mrs)
    (hstale : staleOf mrs (roleNameFor t) = []) :
    syncMember env st uid u = (st, [], false) := by
  rw [syncMember_run env st uid u mrs t hok hm hp ht]
  have hra : rolesAfter mrs (roleNameFor t) = mrs := by
    unfold rolesAfter
    rw [hstale]
    simp [List.diff_nil, hheld]
  rw [hra, hstale, setRoles_eq_self st.members uid mrs hkeys hm]
  simp [hr, hheld]

/-! ### Structure of a per-guild pass -/

theorem processLinks_cons (env : Env) (st : GuildState) (uid : UserId) (u : String)
    (rest : List (UserId × String)) :
    processLinks env st ((uid, u) :: rest) =
      (if (syncMember env st uid u).2.2 = true then
        ((syncMember env st uid u).1, (syncMember env st uid u).2.1, true)
      else
        ((processLinks env (syncMember env st uid u).1 rest).1,
          (syncMember env st uid u).2.1 ++
            (processLinks env (syncMember env st uid u).1 rest).2.1,
          (processLinks env (syncMember env st uid u).1 rest).2.2)) := rfl

theorem processLinks_cons_ok (env : Env) (st : GuildState) (uid : UserId) (u : String)
    (rest : List (UserId × String)) (hab : (syncMember env st uid u).2.2 = false) :
    processLinks env st ((uid, u) :: rest) =
      ((processLinks env (syncMember env st uid u).1 rest).1,
        (syncMember env st uid u).2.1 ++
          (processLinks env (syncMember env st uid u).1 rest).2.1,
        (processLinks env (syncMember env st uid u).1 rest).2.2) := by
  rw [processLinks_cons, hab]
  simp

theorem processLinks_frame (env : Env) (links : List (UserId × String)) (uid : UserId) :
    ∀ st, uid ∉ links.map Prod.fst →
      (processLinks env st links).1.members.lookup uid = st.members.lookup uid := by
  induction links with
  | nil => intro st _; rfl
  | cons p rest ih =>
    intro st h
    obtain ⟨uid₁, u₁⟩ := p
    simp only [List.map_cons, List.mem_cons] at h
    push_neg at h
    rw [processLinks_cons]
    split
    · exact syncMember_frame env st uid₁ uid u₁ h.1
    · dsimp only
      rw [ih _ h.2, syncMember_frame env st uid₁ uid u₁ h.1]

theorem processLinks_keys (env : Env) (links : List (UserId × String)) :
    ∀ st, (processLinks env st links).1.members.map Prod.fst = st.members.map Prod.fst := by
  induction links with
  | nil => intro st; rfl
  | cons p rest ih =>
    intro st
    obtain ⟨uid₁, u₁⟩ := p
    rw [processLinks_cons]
    split
    · exact syncMember_keys env st uid₁ u₁
    · dsimp only
      rw [ih _, syncMember_keys env st uid₁ u₁]

theorem processLinks_roles_mono (env : Env) (links : List (UserId × String)) (a : String) :
    ∀ st, a ∈ st.roles → a ∈ (processLinks env st links).1.roles := by
  induction links with
  | nil => intro st h; exact h
  | cons p rest ih =>
    intro st h
    obtain ⟨uid₁, u₁⟩ := p
    rw [processLinks_cons]
    split
    · exact syncMember_roles_mono env st uid₁ u₁ a h
    · exact ih _ (syncMember_roles_mono env st uid₁ u₁ a h)

theorem processLinks_noabort (env : Env) (links : List (UserId × String))
    (hok : ∀ op, env.writeOk op = true) (hpr : ∀ u', env.provider u' ≠ none) :
    ∀ st, (processLinks env st links).2.2 = false := by
  induction links with
  | nil => intro st; rfl
  | cons p rest ih =>
    intro st
    obtain ⟨uid₁, u₁⟩ := p
    rw [processLinks_cons_ok env st uid₁ u₁ rest
      (syncMember_noabort env st uid₁ u₁ hok hpr)]
    exact ih _

theorem processLinks_wf (env : Env) (links : List (UserId × String))
    (hok : ∀ op, env.writeOk op = true) :
    ∀ st, WFGuild st → WFGuild (processLinks env st links).1 := by
  induction links with
  | nil => intro st h; exact h
  | cons p rest ih =>
    intro st h
    obtain ⟨uid₁, u₁⟩ := p
    rw [processLinks_cons]
    split
    · exact syncMember_wf env st uid₁ u₁ hok h
    · exact ih _ (syncMember_wf env st uid₁ u₁ hok h)

theorem processLinks_post (env : Env) (hok : ∀ op, env.writeOk op = true)
    (hpr : ∀ u', env.provider u' ≠ none) :
    ∀ links : List (UserId × String), ∀ st uid u mrs t,
      (links.map Prod.fst).Nodup → (uid, u) ∈ links →
      st.members.lookup uid = some mrs → mrs.Nodup →
      env.provider u = some ⟨200, some t⟩ → t ≠ 0 →
      (processLinks env st links).1.members.lookup uid =
          some (rolesAfter mrs (roleNameFor t)) ∧
        roleNameFor t ∈ (processLinks env st links).1.roles := by
  intro links
  induction links with
  | nil =>
    intro st uid u mrs t _ hmem
    cases hmem
  | cons p rest ih =>
    intro st uid u mrs t hkeys hmem hm hnd hp ht
    obtain ⟨uid₁, u₁⟩ := p
    simp only [List.map_cons, List.nodup_cons] at hkeys
    rw [processLinks_cons_ok env st uid₁ u₁ rest
      (syncMember_noabort env st uid₁ u₁ hok hpr)]
    rcases List.mem_cons.mp hmem with he | hmem'
    · obtain ⟨he1, he2⟩ := Prod.mk.injEq .. ▸ he
      subst he1
      subst he2
      have hrun := syncMember_run env st uid u mrs t hok hm hp ht
      have hni : uid ∉ rest.map Prod.fst := hkeys.1
      constructor
      · dsimp only
        rw [processLinks_frame env rest uid _ hni, hrun]
        exact lookup_setRoles_self st.members uid mrs (rolesAfter mrs (roleNameFor t)) hm
      · apply processLinks_roles_mono
        rw [hrun]
        dsimp only
        split
        · assumption
        · exact List.mem_append_right _ (List.mem_singleton.mpr rfl)
    · have hne : uid ≠ uid₁ := by
        intro he
        exact hkeys.1 (he ▸ List.mem_map_of_mem Prod.fst hmem')
      have hm₁ : (syncMember env st uid₁ u₁).1.members.lookup uid = some mrs := by
        rw [syncMember_frame env st uid₁ uid u₁ hne, hm]
      exact ih _ uid u mrs t hkeys.2 hmem' hm₁ hnd hp ht

theorem processLinks_idem (env : Env) (hok : ∀ op, env.writeOk op = true)
    (hpr : ∀ u', env.provider u' ≠ none) :
    ∀ links : List (UserId × String), ∀ st, (links.map Prod.fst).Nodup → WFGuild st →
      processLinks env (processLinks env st links).1 links =
        ((processLinks env st links).1, [], false) := by
  intro links
  induction links with
  | nil => intro st _ _; rfl
  | cons p rest ih =>
    intro st hkeys hwf
    obtain ⟨uid, u⟩ := p
    simp only [List.map_cons, List.nodup_cons] at hkeys
    have hwf₁ : WFGuild (syncMember env st uid u).1 := syncMember_wf env st uid u hok hwf
    have h2 : processLinks env (processLinks env (syncMember env st uid u).1 rest).1 rest =
        ((processLinks env (syncMember env st uid u).1 rest).1, [], false) :=
      ih _ hkeys.2 hwf₁
    have hfix : syncMember env (processLinks env (syncMember env st uid u).1 rest).1 uid u =
        ((processLinks env (syncMember env st uid u).1 rest).1, [], false) := by
      rcases syncMember_cases env st uid u with hskip | ⟨mrs, hm, hp⟩ | ⟨mrs, t, hm, hp, ht⟩
      · have h1 : (syncMember env st uid u).1 = st := by
          rw [syncMember_skip env st uid u hskip]
        apply syncMember_skip
        rcases hskip with h | h
        · left
          rw [lookup_none_iff_keys] at h ⊢
          rw [processLinks_keys, h1]
          exact h
        · exact Or.inr h
      · exact absurd hp (hpr u)
      · have hrun := syncMember_run env st uid u mrs t hok hm hp ht
        have hmrs : mrs.Nodup := hwf.2 (uid, mrs) (lookup_mem st.members uid mrs hm)
        have hm₁ : (syncMember env st uid u).1.members.lookup uid =
            some (rolesAfter mrs (roleNameFor t)) := by
          rw [hrun]
          exact lookup_setRoles_self st.members uid mrs _ hm
        have hm₂ : (processLinks env (syncMember env st uid u).1 rest).1.members.lookup uid =
            some (rolesAfter mrs (roleNameFor t)) := by
          rw [processLinks_frame env rest uid _ hkeys.1, hm₁]
        have hr₁ : roleNameFor t ∈ (syncMember env st uid u).1.roles := by
          rw [hrun]
          dsimp only
          split
          · assumption
          · exact List.mem_append_right _ (List.mem_singleton.mpr rfl)
        have hr₂ : roleNameFor t ∈
            (processLinks env (syncMember env st uid u).1 rest).1.roles :=
          processLinks_roles_mono env rest _ _ hr₁
        have hwf₂ : WFGuild (processLinks env (syncMember env st uid u).1 rest).1 :=
          processLinks_wf env rest hok _ hwf₁
        exact syncMember_fixpoint env _ uid u (rolesAfter mrs (roleNameFor t)) t hok
          hwf₂.1 hm₂ hp ht hr₂ (mem_rolesAfter_target mrs (roleNameFor t))
          (rolesAfter_only_target mrs (roleNameFor t) hmrs)
    rw [processLinks_cons_ok env st uid u rest (syncMember_noabort env st uid u hok hpr)]
    dsimp only
    have hcons2 := processLinks_cons env
      ((processLinks env (syncMember env st uid u).1 rest).1) uid u rest
    rw [hfix] at hcons2
    simp only [Bool.false_eq_true, if_false] at hcons2
    rw [hcons2, h2]
    rfl

/-! ### Structure of the whole pass -/

theorem syncGuilds_cons (env : Env) (links : List (UserId × String)) (g : GuildState)
    (gs : List GuildState) :
    syncGuilds env links (g :: gs) =
      (if (processLinks env g links).2.2 = true then
        ((processLinks env g links).1 :: gs, (processLinks env g links).2.1, true)
      else
        ((processLinks env g links).1 :: (syncGuilds env links gs).1,
          (processLinks env g links).2.1 ++ (syncGuilds env links gs).2.1,
          (syncGuilds env links gs).2.2)) := rfl

theorem syncGuilds_fst (env : Env) (links : List (UserId × String))
    (hok : ∀ op, env.writeOk op = true) (hpr : ∀ u', env.provider u' ≠ none) :
    ∀ gs, (syncGuilds env links gs).1 = gs.map (fun g => (processLinks env g links).1) := by
  intro gs
  induction gs with
  | nil => rfl
  | cons g rest ih =>
    rw [syncGuilds_cons, processLinks_noabort env links hok hpr g]
    simp [ih]

theorem syncGuilds_noabort (env : Env) (links : List (UserId × String))
    (hok : ∀ op, env.writeOk op = true) (hpr : ∀ u', env.provider u' ≠ none) :
    ∀ gs, (syncGuilds env links gs).2.2 = false := by
  intro gs
  induction gs with
  | nil => rfl
  | cons g rest ih =>
    rw [syncGuilds_cons, processLinks_noabort env links hok hpr g]
    simp [ih]

theorem syncGuilds_idem (env : Env) (links : List (UserId × String))
    (hok : ∀ op, env.writeOk op = true) (hpr : ∀ u', env.provider u' ≠ none)
    (hkeys : (links.map Prod.fst).Nodup) :
    ∀ gs, (∀ g ∈ gs, WFGuild g) →
      syncGuilds env links (syncGuilds env links gs).1 =
        ((syncGuilds env links gs).1, [], false) := by
  intro gs
  induction gs with
  | nil => intro _; rfl
  | cons g rest ih =>
    intro hwf
    rw [syncGuilds_cons, processLinks_noabort env links hok hpr g]
    simp only [Bool.false_eq_true, if_false]
    rw [syncGuilds_cons,
      processLinks_idem env hok hpr links g hkeys (hwf g (List.mem_cons_self g rest))]
    simp only [Bool.false_eq_true, if_false]
    rw [ih (fun g' hg' => hwf g' (List.mem_cons_of_mem g hg'))]
    rfl

theorem syncGuilds_nil_links (env : Env) :
    ∀ gs, syncGuilds env [] gs = (gs, [], false) := by
  intro gs
  induction gs with
  | nil => rfl
  | cons g rest ih =>
    rw [syncGuilds_cons]
    simp only [show processLinks env g [] = (g, [], false) from rfl]
    simp [ih]

/-! ### Auxiliary facts for the unlink command -/

theorem lookup_filter_ne (links : List (UserId × String)) (uid : UserId) :
    (links.filter (fun p => p.1 != uid)).lookup uid = none := by
  rw [List.lookup_eq_none_iff]
  intro p hp
  have := (List.mem_filter.mp hp).2
  simp only [bne_iff_ne, ne_eq] at this ⊢
  exact fun he => this he.symm

theorem unlinkRemoveLoop_no_save (removeOk : String → Bool) :
    ∀ rs l, UnlinkOp.saveLinks l ∉ unlinkRemoveLoop removeOk rs := by
  intro rs
  induction rs with
  | nil => intro l h; cases h
  | cons r rest ih =>
    intro l h
    unfold unlinkRemoveLoop at h
    split at h
    · rcases List.mem_cons.mp h with he | hm
      · cases he
      · exact ih l hm
    · exact ih l h

theorem unlinkRemoveLoop_mem (removeOk : String → Bool) :
    ∀ rs r, r ∈ rs → isRankRoleName r = true →
      UnlinkOp.removeAttempt r (removeOk r) ∈ unlinkRemoveLoop removeOk rs := by
  intro rs
  induction rs with
  | nil => intro r h; cases h
  | cons a rest ih =>
    intro r h hrank
    unfold unlinkRemoveLoop
    rcases List.mem_cons.mp h with he | hm
    · subst he
      rw [if_pos hrank]
      exact List.mem_cons_self _ _
    · split
      · exact List.mem_cons_of_mem _ (ih r hm hrank)
      · exact ih r hm hrank

/-! ### Claim theorems -/

/-- C1: for a (guild, linked account) pair whose provider lookup yields a
determinable rank tier `t`, the per-account step issues exactly the held stale
rank roles as removals, every removal before the single optional addition, and
the addition only when the target role is not already held; after the guild's
pass the member holds the tag named `FACEIT Level t` and no other tag whose
name starts with the rank marker; the full pass applies the per-guild pass to
every guild. The pass-level conclusions assume every platform write succeeds
and no provider fetch raises, so that the whole pass really runs. -/
theorem claim_C1 (env : Env) (st : GuildState) (links : List (UserId × String))
    (gs : List GuildState) (uid : UserId) (u : String) (mrs : List String) (t : Nat)
    (hok : ∀ op, env.writeOk op = true) (hpr : ∀ u', env.provider u' ≠ none)
    (hm : st.members.lookup uid = some mrs) (hnd : mrs.Nodup)
    (hp : env.provider u = some ⟨200, some t⟩) (ht : t ≠ 0)
    (hkeys : (links.map Prod.fst).Nodup) (hlink : (uid, u) ∈ links) :
    (syncMember env st uid u).2.1 =
      (if roleNameFor t ∈ st.roles then []
        else [WriteOp.createRole st.gid (roleNameFor t)]) ++
        (staleOf mrs (roleNameFor t)).map (WriteOp.removeRole st.gid uid) ++
        (if roleNameFor t ∈ mrs then []
          else [WriteOp.addRole st.gid uid (roleNameFor t)]) ∧
    (syncMember env st uid u).2.2 = false ∧
    (∃ mrs', (processLinks env st links).1.members.lookup uid = some mrs' ∧
      roleNameFor t ∈ mrs' ∧ ∀ r ∈ mrs', isRankRoleName r = true → r = roleNameFor t) ∧
    (runOnce env links gs).1 = gs.map (fun g => (processLinks env g links).1) := by
  have hrun := syncMember_run env st uid u mrs t hok hm hp ht
  refine ⟨by rw [hrun], by rw [hrun], ?_, syncGuilds_fst env links hok hpr gs⟩
  obtain ⟨hl, hr⟩ :=
    processLinks_post env hok hpr links st uid u mrs t hkeys hlink hm hnd hp ht
  refine ⟨rolesAfter mrs (roleNameFor t), hl,
    mem_rolesAfter_target mrs (roleNameFor t), ?_⟩
  intro r hrm hrank
  have honly := rolesAfter_only_target mrs (roleNameFor t) hnd
  rw [staleOf_eq_nil_iff] at honly
  exact honly r hrm hrank

/-- C2: running the pass a second time from the state the first pass produced,
with the same link snapshot and provider answers and all platform writes
succeeding, issues zero platform write calls, does not abort, and leaves every
guild state unchanged. -/
theorem claim_C2 (env : Env) (links : List (UserId × String)) (gs : List GuildState)
    (hok : ∀ op, env.writeOk op = true) (hpr : ∀ u', env.provider u' ≠ none)
    (hkeys : (links.map Prod.fst).Nodup) (hwf : ∀ g ∈ gs, WFGuild g) :
    runOnce env links (runOnce env links gs).1 = ((runOnce env links gs).1, [], false) :=
  syncGuilds_idem env links hok hpr hkeys gs hwf

/-- C5: an account whose provider lookup fails with NotFound (HTTP 404) or
succeeds without a determinable rank (missing or falsy `skill_level`) is
skipped with no modification: no write call and an unchanged guild state. -/
theorem claim_C5 (env : Env) (st : GuildState) (uid : UserId) (u : String)
    (r : ProviderResp) (hr : env.provider u = some r)
    (h : r.status = 404 ∨
      (r.status = 200 ∧ (r.skillLevel = none ∨ r.skillLevel = some 0))) :
    syncMember env st uid u = (st, [], false) := by
  apply syncMember_skip
  refine Or.inr ⟨r, hr, ?_⟩
  rcases h with h | ⟨h1, h2⟩
  · left
    rw [h]
    decide
  · rcases h2 with h2 | h2
    · exact Or.inr (Or.inl h2)
    · exact Or.inr (Or.inr h2)

/-- C8: a `setInterval` request with `minutes < 1` is rejected synchronously
as InvalidInterval and the scheduler state is completely unchanged: the
interval keeps its value, the running task is neither cancelled nor
restarted. -/
theorem claim_C8 (s : SchedState) (m : Int) (hm : m < 1) :
    faceitsync s m = (s, SetIntervalResult.invalidInterval) := by
  unfold faceitsync
  rw [if_pos hm]

/-- C4: a `setInterval(m)` with `m ≥ 1` while the loop task is running cancels
the previous generation, starts a new running generation with interval `m`,
whose trace begins with `wait_until_ready` immediately followed by a pass —
before any sleep — and whose non-failing iterations are spaced `m * 60`
seconds apart. -/
theorem claim_C4 (s : SchedState) (m : Int) (h1 : 1 ≤ m) (hr : s.running = true) :
    (faceitsync s m).2 = SetIntervalResult.restarted ∧
    (faceitsync s m).1.cancelled = s.cancelled ++ [s.generation] ∧
    (faceitsync s m).1.generation = s.generation + 1 ∧
    (faceitsync s m).1.running = true ∧
    (faceitsync s m).1.intervalMin = m.toNat ∧
    (∀ outcome : Nat → Bool, loopEvents (faceitsync s m).1.intervalMin outcome 1 =
      [SupEvent.waitReady, SupEvent.pass (outcome 0),
        SupEvent.sleep (if outcome 0 then backoffSecs else m.toNat * 60)]) ∧
    (∀ outcome : Nat → Bool, ∀ k, outcome k = false →
      loopEvents (faceitsync s m).1.intervalMin outcome (k + 1) =
        loopEvents (faceitsync s m).1.intervalMin outcome k ++
          [SupEvent.pass false, SupEvent.sleep (m.toNat * 60)]) := by
  have hnl : ¬ (m < 1) := not_lt.mpr h1
  have hfs : faceitsync s m =
      ({ intervalMin := m.toNat, generation := s.generation + 1, running := true,
         cancelled := s.cancelled ++ [s.generation] }, SetIntervalResult.restarted) := by
    simp [faceitsync, hnl, hr]
  rw [hfs]
  refine ⟨rfl, rfl, rfl, rfl, rfl, ?_, ?_⟩
  · intro outcome
    cases h0 : outcome 0 <;> simp [loopEvents, iterEvents, h0]
  · intro outcome k hk
    simp [loopEvents, iterEvents, hk]

/-- C6 (amended): an unexpected error escaping a pass does not terminate the
loop: the iteration ends with the fixed 60-second backoff, which never exceeds
the configured interval and is strictly shorter whenever the interval is at
least 2 minutes, and the loop then runs a further pass. -/
theorem claim_C6 (intervalMin : Nat) (outcome : Nat → Bool) (k : Nat)
    (hab : outcome k = true) (hi : 1 ≤ intervalMin) :
    loopEvents intervalMin outcome (k + 1) =
      loopEvents intervalMin outcome k ++
        [SupEvent.pass true, SupEvent.sleep backoffSecs] ∧
    backoffSecs ≤ intervalMin * 60 ∧
    (2 ≤ intervalMin → backoffSecs < intervalMin * 60) ∧
    SupEvent.pass (outcome (k + 1)) ∈ loopEvents intervalMin outcome (k + 2) := by
  refine ⟨by simp [loopEvents, iterEvents, hab], ?_, ?_, ?_⟩
  · calc backoffSecs = 1 * 60 := rfl
      _ ≤ intervalMin * 60 := Nat.mul_le_mul_right 60 hi
  · intro h2
    calc backoffSecs < 2 * 60 := by decide
      _ ≤ intervalMin * 60 := Nat.mul_le_mul_right 60 h2
  · show SupEvent.pass (outcome (k + 1)) ∈ loopEvents intervalMin outcome (k + 1 + 1)
    rw [loopEvents]
    apply List.mem_append_right
    unfold iterEvents
    cases h : outcome (k + 1) <;> simp

/-- C6 counterexample: interval 1 minute is accepted by `setInterval`, and
then the fixed 60-second backoff is not shorter than the configured
interval — it equals it. -/
theorem claim_C6_cex :
    (faceitsync initialSched 1).2 = SetIntervalResult.restarted ∧
    (faceitsync initialSched 1).1.intervalMin = 1 ∧
    ¬ (backoffSecs < (faceitsync initialSched 1).1.intervalMin * 60) := by decide

/-- C3 (amended): a member-resolution failure, or a provider error response
the code handles (non-200 status, missing or falsy skill level), never aborts
the pass — the remaining accounts are processed exactly as if that account
were absent. But an exception raised by the provider fetch itself (a
transport failure, bot.py line 87) aborts the remainder of the pass, with the
state unchanged and nothing written, exactly like a failed role write, since
neither has a per-account handler. The supervisor loop always runs a further
iteration beginning with a pass, so a per-cycle failure never terminates
it. -/
theorem claim_C3 (env : Env) (st : GuildState) (uid : UserId) (u : String)
    (rest : List (UserId × String)) :
    (st.members.lookup uid = none →
      processLinks env st ((uid, u) :: rest) = processLinks env st rest) ∧
    (∀ r, env.provider u = some r →
      (r.status ≠ 200 ∨ r.skillLevel = none ∨ r.skillLevel = some 0) →
      processLinks env st ((uid, u) :: rest) = processLinks env st rest) ∧
    (∀ mrs, st.members.lookup uid = some mrs → env.provider u = none →
      processLinks env st ((uid, u) :: rest) = (st, [], true)) ∧
    (∀ intervalMin : Nat, ∀ outcome : Nat → Bool, ∀ k : Nat,
      loopEvents intervalMin outcome (k + 1) =
        loopEvents intervalMin outcome k ++ iterEvents intervalMin (outcome k)) ∧
    (∀ intervalMin : Nat, ∀ ab : Bool,
      (iterEvents intervalMin ab).head? = some (SupEvent.pass ab)) := by
  refine ⟨?_, ?_, ?_, fun i o k => rfl, fun i ab => by cases ab <;> rfl⟩
  · intro h
    rw [processLinks_cons, syncMember_skip env st uid u (Or.inl h)]
    simp
  · intro r hr hcond
    rw [processLinks_cons, syncMember_skip env st uid u (Or.inr ⟨r, hr, hcond⟩)]
    simp
  · intro mrs hm hp
    rw [processLinks_cons, syncMember_raise env st uid u mrs hm hp]
    simp

/-- C3 counterexample: the failed role addition for account 1 aborts the whole
pass: the pass ends with only that one attempted write, account 2 — which the
step would update (its own step issues an addition) — keeps its unchanged role
list and receives no write. -/
theorem claim_C3_cex :
    (runOnce envC3 [(1, "alice"), (2, "bob")] [gC3]).2.2 = true ∧
    (runOnce envC3 [(1, "alice"), (2, "bob")] [gC3]).2.1 =
      [WriteOp.addRole 0 1 "FACEIT Level 3"] ∧
    ((runOnce envC3 [(1, "alice"), (2, "bob")] [gC3]).1.map
      (fun g => g.members.lookup 2)) = [some []] ∧
    (syncMember envC3 gC3 2 "bob").2.1 = [WriteOp.addRole 0 2 "FACEIT Level 3"] := by
  decide

/-- C7 (amended): a failing link-store read is swallowed by `load_links`,
which returns the empty mapping; the pass then runs over zero linked accounts
and completes normally — no writes, no abort, and the iteration ends with the
normal inter-cycle sleep rather than the backoff. -/
theorem claim_C7 (e : String) (env : Env) (gs : List GuildState) (intervalMin : Nat) :
    load_links (Except.error e) = [] ∧
    runOnceWithStore env (Except.error e) gs = (gs, [], false) ∧
    iterEvents intervalMin false = [SupEvent.pass false, SupEvent.sleep (intervalMin * 60)] :=
  ⟨rfl, syncGuilds_nil_links env gs, rfl⟩

/-- C7 counterexample: with the links file unreadable, the pass is not aborted
and no StoreUnavailable is surfaced: `load_links` returns the empty mapping
and the pass completes normally with zero writes. -/
theorem claim_C7_cex :
    load_links (Except.error ("missing faceit_links.json")) = [] ∧
    runOnceWithStore envC7 (Except.error ("missing faceit_links.json")) [gC7] =
      ([gC7], [], false) := by
  decide

/-- C9: the single-user update command issues the `add_roles` platform write
even when the user already holds the target role, while the periodic sync in
the same situation issues no addition. -/
theorem claim_C9 (env : Env) (links : List (UserId × String)) (gid : Nat)
    (guildRoles : List String) (uid : UserId) (userRoles : List String)
    (u : String) (t : Nat) (st : GuildState) (mrs : List String)
    (hl : links.lookup uid = some u)
    (hp : env.provider u = some ⟨200, some t⟩) (ht : t ≠ 0)
    (_hheld : roleNameFor t ∈ userRoles)
    (hok : ∀ op, env.writeOk op = true)
    (hm : st.members.lookup uid = some mrs) (hheldSync : roleNameFor t ∈ mrs) :
    WriteOp.addRole gid uid (roleNameFor t) ∈
      (faceitupdate env links gid guildRoles uid userRoles).2.2.1 ∧
    WriteOp.addRole st.gid uid (roleNameFor t) ∉ (syncMember env st uid u).2.1 := by
  constructor
  · unfold faceitupdate
    rw [hl]
    simp only [hp, ne_eq, not_true_eq_false, if_false, ht, reduceIte]
    exact List.mem_append_right _ (List.mem_singleton.mpr rfl)
  · rw [syncMember_run env st uid u mrs t hok hm hp ht]
    dsimp only
    rw [if_pos hheldSync, List.append_nil]
    intro hmem
    rcases List.mem_append.mp hmem with h | h
    · split at h
      · cases h
      · have := List.mem_singleton.mp h
        simp at this
    · obtain ⟨r, _, he⟩ := List.mem_map.mp h
      simp at he

/-- C10: unlinking a linked user deletes and persists the link before any role
removal is attempted; the persisted mapping no longer contains the user and is
never written again, and every held rank role gets a removal attempt
regardless of failures of earlier attempts. -/
theorem claim_C10 (links : List (UserId × String)) (uid : UserId)
    (userRoles : List String) (removeOk : String → Bool) (u : String)
    (hl : links.lookup uid = some u) :
    (unlinkfaceit links uid userRoles removeOk).1.lookup uid = none ∧
    (unlinkfaceit links uid userRoles removeOk).2.1.head? =
      some (UnlinkOp.saveLinks (unlinkfaceit links uid userRoles removeOk).1) ∧
    (∀ l, UnlinkOp.saveLinks l ∈ (unlinkfaceit links uid userRoles removeOk).2.1 →
      l = (unlinkfaceit links uid userRoles removeOk).1) ∧
    (∀ r ∈ userRoles, isRankRoleName r = true →
      UnlinkOp.removeAttempt r (removeOk r) ∈
        (unlinkfaceit links uid userRoles removeOk).2.1) := by
  unfold unlinkfaceit
  rw [hl]
  refine ⟨lookup_filter_ne links uid, rfl, ?_, ?_⟩
  · intro l hm
    rcases List.mem_cons.mp hm with he | hm'
    · injection he with he2
    · exact absurd hm' (unlinkRemoveLoop_no_save removeOk userRoles l)
  · intro r hr hrank
    exact List.mem_cons_of_mem _ (unlinkRemoveLoop_mem removeOk userRoles r hr hrank)

/-! ### Witnesses -/

theorem claim_C1_witness :
    (syncMember envW gW 1 "alice").2.1 =
      (if roleNameFor 5 ∈ gW.roles then []
        else [WriteOp.createRole gW.gid (roleNameFor 5)]) ++
        (staleOf ["FACEIT Level 2", "member"] (roleNameFor 5)).map
          (WriteOp.removeRole gW.gid 1) ++
        (if roleNameFor 5 ∈ ["FACEIT Level 2", "member"] then []
          else [WriteOp.addRole gW.gid 1 (roleNameFor 5)]) ∧
    (syncMember envW gW 1 "alice").2.2 = false ∧
    (∃ mrs', (processLinks envW gW linksW).1.members.lookup 1 = some mrs' ∧
      roleNameFor 5 ∈ mrs' ∧ ∀ r ∈ mrs', isRankRoleName r = true → r = roleNameFor 5) ∧
    (runOnce envW linksW [gW]).1 = [gW].map (fun g => (processLinks envW g linksW).1) :=
  claim_C1 envW gW linksW [gW] 1 "alice" ["FACEIT Level 2", "member"] 5
    (fun _ => rfl) (fun _ => Option.some_ne_none _) (by decide) (by decide) (by decide)
    (by decide) (by decide) (by decide)

theorem claim_C2_witness :
    runOnce envW linksW (runOnce envW linksW [gW]).1 =
      ((runOnce envW linksW [gW]).1, [], false) :=
  claim_C2 envW linksW [gW] (fun _ => rfl) (fun _ => Option.some_ne_none _)
    (by decide) (by decide)

theorem claim_C3_witness :
    processLinks envC3r gC3r ((99, "bob") :: [(5, "eve")]) =
      processLinks envC3r gC3r [(5, "eve")] ∧
    processLinks envC3r gC3r ((5, "carol") :: [(1, "eve")]) =
      processLinks envC3r gC3r [(1, "eve")] ∧
    processLinks envC3r gC3r ((1, "alice") :: [(5, "eve")]) = (gC3r, [], true) ∧
    (iterEvents 360 true).head? = some (SupEvent.pass true) :=
  ⟨(claim_C3 envC3r gC3r 99 "bob" [(5, "eve")]).1 (by decide),
    (claim_C3 envC3r gC3r 5 "carol" [(1, "eve")]).2.1
      { status := 500, skillLevel := some 2 } (by decide) (Or.inl (by decide)),
    (claim_C3 envC3r gC3r 1 "alice" [(5, "eve")]).2.2.1 [] (by decide) (by decide),
    (claim_C3 envC3r gC3r 1 "alice" [(5, "eve")]).2.2.2.2 360 true⟩

theorem claim_C4_witness :
    (faceitsync initialSched 5).2 = SetIntervalResult.restarted ∧
    (faceitsync initialSched 5).1.cancelled =
      initialSched.cancelled ++ [initialSched.generation] ∧
    (faceitsync initialSched 5).1.generation = initialSched.generation + 1 ∧
    (faceitsync initialSched 5).1.running = true ∧
    (faceitsync initialSched 5).1.intervalMin = (5 : Int).toNat ∧
    (∀ outcome : Nat → Bool, loopEvents (faceitsync initialSched 5).1.intervalMin outcome 1 =
      [SupEvent.waitReady, SupEvent.pass (outcome 0),
        SupEvent.sleep (if outcome 0 then backoffSecs else (5 : Int).toNat * 60)]) ∧
    (∀ outcome : Nat → Bool, ∀ k, outcome k = false →
      loopEvents (faceitsync initialSched 5).1.intervalMin outcome (k + 1) =
        loopEvents (faceitsync initialSched 5).1.intervalMin outcome k ++
          [SupEvent.pass false, SupEvent.sleep ((5 : Int).toNat * 60)]) :=
  claim_C4 initialSched 5 (by decide) (by decide)

theorem claim_C5_witness :
    syncMember envNF gW 1 "alice" = (gW, [], false) :=
  claim_C5 envNF gW 1 "alice" { status := 404, skillLevel := none } (by decide)
    (Or.inl (by decide))

theorem claim_C6_witness :
    loopEvents 360 (fun n => n == 0) (0 + 1) =
      loopEvents 360 (fun n => n == 0) 0 ++
        [SupEvent.pass true, SupEvent.sleep backoffSecs] ∧
    backoffSecs ≤ 360 * 60 ∧
    (2 ≤ 360 → backoffSecs < 360 * 60) ∧
    SupEvent.pass ((fun n => n == 0) (0 + 1)) ∈
      loopEvents 360 (fun n => n == 0) (0 + 2) :=
  claim_C6 360 (fun n => n == 0) 0 (by decide) (by decide)

theorem claim_C8_witness :
    faceitsync initialSched 0 = (initialSched, SetIntervalResult.invalidInterval) :=
  claim_C8 initialSched 0 (by decide)

theorem claim_C9_witness :
    WriteOp.addRole 7 1 (roleNameFor 5) ∈
      (faceitupdate envW linksW 7 ["FACEIT Level 5"] 1 ["FACEIT Level 5"]).2.2.1 ∧
    WriteOp.addRole gW9.gid 1 (roleNameFor 5) ∉ (syncMember envW gW9 1 "alice").2.1 :=
  claim_C9 envW linksW 7 ["FACEIT Level 5"] 1 ["FACEIT Level 5"] "alice" 5 gW9
    ["FACEIT Level 5"] (by decide) (by decide) (by decide) (by decide)
    (fun _ => rfl) (by decide) (by decide)

theorem claim_C10_witness :
    (unlinkfaceit linksW 1 ["FACEIT Level 1", "member", "FACEIT Level 2"]
      (fun r => r != "FACEIT Level 1")).1.lookup 1 = none ∧
    (unlinkfaceit linksW 1 ["FACEIT Level 1", "member", "FACEIT Level 2"]
      (fun r => r != "FACEIT Level 1")).2.1.head? =
      some (UnlinkOp.saveLinks (unlinkfaceit linksW 1
        ["FACEIT Level 1", "member", "FACEIT Level 2"]
        (fun r => r != "FACEIT Level 1")).1) ∧
    (∀ l, UnlinkOp.saveLinks l ∈ (unlinkfaceit linksW 1
        ["FACEIT Level 1", "member", "FACEIT Level 2"]
        (fun r => r != "FACEIT Level 1")).2.1 →
      l = (unlinkfaceit linksW 1 ["FACEIT Level 1", "member", "FACEIT Level 2"]
        (fun r => r != "FACEIT Level 1")).1) ∧
    (∀ r ∈ ["FACEIT Level 1", "member", "FACEIT Level 2"], isRankRoleName r = true →
      UnlinkOp.removeAttempt r ((fun s => s != "FACEIT Level 1") r) ∈
        (unlinkfaceit linksW 1 ["FACEIT Level 1", "member", "FACEIT Level 2"]
          (fun r => r != "FACEIT Level 1")).2.1) :=
  claim_C10 linksW 1 ["FACEIT Level 1", "member", "FACEIT Level 2"]
    (fun r => r != "FACEIT Level 1") "alice" (by decide)
